import Mathlib

/-!
Verification of the QuantumAgentic agent-registry-program repository.

The development shallowly embeds the state-transition core of the three
Anchor programs (`agent-registry`, `agent-staking`, `agent-platform`):
machine integers are modelled as `Nat` with explicit saturation / truncation
at the type's width, byte buffers as `List Nat`, public keys as `Nat`
identifiers, and fallible instructions as `Except`-valued functions.
External collaborators (token transfers, the keyed account store, the clock)
enter as explicit parameters; an instruction is modelled only at the point
where its account constraints have resolved, and a successful result is the
instruction's complete effect on the records it declares.
-/

deriving instance DecidableEq for Except

/-! ## Machine-integer helpers -/

/-- Largest value of a `u64`. -/
def U64MAX : Nat := 2 ^ 64 - 1

/-- Largest value of a `u32`. -/
def U32MAX : Nat := 2 ^ 32 - 1

/-- Largest value of a `u128`. -/
def U128MAX : Nat := 2 ^ 128 - 1

/-- `u64::saturating_add`. -/
def satAdd64 (a b : Nat) : Nat := min (a + b) U64MAX

/-- `u32::saturating_add`. -/
def satAdd32 (a b : Nat) : Nat := min (a + b) U32MAX

/-- `u128::saturating_mul`. -/
def satMul128 (a b : Nat) : Nat := min (a * b) U128MAX

/-! On `Nat`, Rust's `saturating_sub` is exactly truncated subtraction,
so `Nat.sub` is used directly where the source says `saturating_sub`. -/

/-! ## agent-staking: fee configuration and the fee decay calculator -/

/-- Error enum of the `agent_staking` program (`StakingError`). -/
inductive StakingError where
  | InvalidMinStakeAmount
  | InvalidFeeConfig
  | InvalidStakeAmount
  | NoStake
  | Unauthorized
  | InvalidVault
  | BelowMinimumStake
  | InsufficientSolForFee
  | InvalidAgent
  | StakingNotEnabled
deriving DecidableEq, Repr

/-- The `ProgramState` account of `agent_staking`: fee schedule plus
treasury.  Fields are `u64`/`u32` in the source, modelled as `Nat` with
width bounds supplied as hypotheses where they matter. -/
structure ProgramState where
  fee_immediate_lamports : Nat
  fee_regular_lamports : Nat
  fee_max_lamports : Nat
  decay_duration_seconds : Nat
  treasury : Nat
deriving DecidableEq, Repr

/-- The fields of a `ProgramState` are in range for their Rust types
(`u64` fees, `u32` duration). -/
def ProgramState.WF (st : ProgramState) : Prop :=
  st.fee_immediate_lamports ≤ U64MAX ∧ st.fee_regular_lamports ≤ U64MAX ∧
  st.fee_max_lamports ≤ U64MAX ∧ st.decay_duration_seconds ≤ U32MAX

instance (st : ProgramState) : Decidable st.WF := by
  unfold ProgramState.WF; infer_instance

/-- `calculate_unstake_fee` from `agent-staking/src/lib.rs`.
`require!(decay_duration_seconds > 0)` guards the division, so the
`checked_div` in the source cannot return `None` and is modelled as plain
division.  The intermediate arithmetic is at `u128` width
(`saturating_sub`, `saturating_mul`); the final `as u64` cast is the
`% 2 ^ 64` truncation. -/
def calculate_unstake_fee (elapsed_secs : Nat) (state : ProgramState) :
    Except StakingError Nat :=
  if state.decay_duration_seconds = 0 then
    .error .InvalidFeeConfig
  else if state.decay_duration_seconds ≤ elapsed_secs then
    .ok (min state.fee_regular_lamports state.fee_max_lamports)
  else
    let diff := state.fee_immediate_lamports - state.fee_regular_lamports
    let reduction := satMul128 diff elapsed_secs / state.decay_duration_seconds
    let fee := state.fee_immediate_lamports - reduction
    .ok (min fee state.fee_max_lamports % 2 ^ 64)

/-- The hard-coded default fee configuration (`ProgramState::DEFAULT_*`). -/
def defaultProgramState (treasury : Nat) : ProgramState :=
  { fee_immediate_lamports := 100000000
    fee_regular_lamports := 1000000
    fee_max_lamports := 100000000
    decay_duration_seconds := 86400
    treasury := treasury }

/-! ### Supporting lemmas for the fee calculator -/

theorem satMul128_le_mul (a b : Nat) : satMul128 a b ≤ a * b := by
  unfold satMul128; exact min_le_left _ _

theorem satMul128_eq_of_le (a b : Nat) (h : a * b ≤ U128MAX) :
    satMul128 a b = a * b := by
  unfold satMul128; omega

theorem satMul128_mono_right (a : Nat) {b c : Nat} (h : b ≤ c) :
    satMul128 a b ≤ satMul128 a c := by
  unfold satMul128
  exact min_le_min (Nat.mul_le_mul_left a h) le_rfl

theorem satMul128_zero_right (a : Nat) : satMul128 a 0 = 0 := by
  simp [satMul128]

/-- Strip the final `as u64` truncation: the clamp `min fee fee_max` is below
`2 ^ 64` whenever `fee_max` fits in a `u64`. -/
theorem min_mod_u64 (fee m : Nat) (hM : m ≤ U64MAX) :
    min fee m % 2 ^ 64 = min fee m := by
  have h : min fee m ≤ U64MAX := le_trans (min_le_right _ _) hM
  have : min fee m < 2 ^ 64 := by unfold U64MAX at h; omega
  exact Nat.mod_eq_of_lt this

/-- C3: `calculate_unstake_fee` fails with `InvalidFeeConfig` iff the decay
duration is zero; at `elapsed = 0` it returns `min feeImmediate feeMax`; at
`elapsed ≥ decayDuration` it returns `min feeRegular feeMax`; strictly inside
the decay window it returns
`min (feeImmediate - (feeImmediate - feeRegular) * elapsed / duration) feeMax`
with truncated (saturating) subtraction and integer division, the double-width
multiplication never overflowing for in-range fields. -/
theorem c3_fee_decay (st : ProgramState) (hWF : st.WF) (e : Nat) :
    (st.decay_duration_seconds = 0 →
      calculate_unstake_fee e st = .error .InvalidFeeConfig) ∧
    (0 < st.decay_duration_seconds →
      calculate_unstake_fee 0 st =
        .ok (min st.fee_immediate_lamports st.fee_max_lamports)) ∧
    (0 < st.decay_duration_seconds → st.decay_duration_seconds ≤ e →
      calculate_unstake_fee e st =
        .ok (min st.fee_regular_lamports st.fee_max_lamports)) ∧
    (0 < e → e < st.decay_duration_seconds →
      calculate_unstake_fee e st =
        .ok (min (st.fee_immediate_lamports -
              (st.fee_immediate_lamports - st.fee_regular_lamports) * e /
                st.decay_duration_seconds)
            st.fee_max_lamports)) := by
  obtain ⟨hI, hR, hM, hD⟩ := hWF
  refine ⟨fun h0 => by simp [calculate_unstake_fee, h0], ?_, ?_, ?_⟩
  · intro hpos
    have hne : st.decay_duration_seconds ≠ 0 := by omega
    have hnle : ¬ st.decay_duration_seconds ≤ 0 := by omega
    simp only [calculate_unstake_fee, if_neg hne, if_neg hnle,
      satMul128_zero_right, Nat.zero_div, Nat.sub_zero]
    rw [min_mod_u64 _ _ hM]
  · intro hpos hle
    have hne : st.decay_duration_seconds ≠ 0 := by omega
    simp [calculate_unstake_fee, if_neg hne, if_pos hle]
  · intro hepos helt
    have hne : st.decay_duration_seconds ≠ 0 := by omega
    have hnle : ¬ st.decay_duration_seconds ≤ e := by omega
    have hdiff : st.fee_immediate_lamports - st.fee_regular_lamports ≤ U64MAX :=
      le_trans (Nat.sub_le _ _) hI
    have he32 : e ≤ U32MAX := by
      have : e < st.decay_duration_seconds := helt
      omega
    have hmul :
        (st.fee_immediate_lamports - st.fee_regular_lamports) * e ≤ U128MAX := by
      calc (st.fee_immediate_lamports - st.fee_regular_lamports) * e
          ≤ U64MAX * U32MAX := Nat.mul_le_mul hdiff he32
        _ ≤ U128MAX := by unfold U64MAX U32MAX U128MAX; norm_num
    simp only [calculate_unstake_fee, if_neg hne, if_neg hnle,
      satMul128_eq_of_le _ _ hmul]
    rw [min_mod_u64 _ _ hM]

/-- Witness for C3 at the default fee configuration. -/
theorem c3_fee_decay_witness :
    calculate_unstake_fee 0 (defaultProgramState 7) = .ok 100000000 :=
  (c3_fee_decay (defaultProgramState 7) (by decide) 0).2.1 (by decide)

/-- A fee configuration with `feeRegular > feeImmediate`: the decay
formula then rises from `feeImmediate` to `feeRegular`. -/
def risingFeeState : ProgramState :=
  { fee_immediate_lamports := 0
    fee_regular_lamports := 10
    fee_max_lamports := 100
    decay_duration_seconds := 10
    treasury := 0 }

/-- C2 counterexample: with `feeImmediate = 0`, `feeRegular = 10`,
`feeMax = 100`, `decayDuration = 10`, the fee at `elapsed = 0` is `0` but at
`elapsed = 10` it is `10`, so `calculate_unstake_fee` is not monotonically
non-increasing in `elapsed` for every configuration with positive decay
duration. -/
theorem c2_fee_monotone_cex :
    0 < risingFeeState.decay_duration_seconds ∧
    calculate_unstake_fee 0 risingFeeState = .ok 0 ∧
    calculate_unstake_fee 10 risingFeeState = .ok 10 ∧
    ¬ (10 : Nat) ≤ 0 := by decide

/-- C2 (amended): for every configuration with `feeRegular ≤ feeImmediate`
(true of the only deployed configuration, the hard-coded defaults) and a
`u64`-ranged `feeMax`, `calculate_unstake_fee` is monotonically
non-increasing in `elapsed`. -/
theorem c2_fee_monotone (st : ProgramState)
    (hRI : st.fee_regular_lamports ≤ st.fee_immediate_lamports)
    (hM : st.fee_max_lamports ≤ U64MAX) (e1 e2 f1 f2 : Nat) (h12 : e1 ≤ e2)
    (h1 : calculate_unstake_fee e1 st = .ok f1)
    (h2 : calculate_unstake_fee e2 st = .ok f2) : f2 ≤ f1 := by
  have hd : st.decay_duration_seconds ≠ 0 := by
    intro h; simp [calculate_unstake_fee, h] at h1
  have hred_le : ∀ e, e < st.decay_duration_seconds →
      satMul128 (st.fee_immediate_lamports - st.fee_regular_lamports) e /
          st.decay_duration_seconds ≤
        st.fee_immediate_lamports - st.fee_regular_lamports := by
    intro e he
    apply Nat.div_le_of_le_mul'
    calc satMul128 (st.fee_immediate_lamports - st.fee_regular_lamports) e
        ≤ (st.fee_immediate_lamports - st.fee_regular_lamports) * e :=
          satMul128_le_mul _ _
      _ ≤ (st.fee_immediate_lamports - st.fee_regular_lamports) *
            st.decay_duration_seconds :=
          Nat.mul_le_mul_left _ (le_of_lt he)
      _ = st.decay_duration_seconds *
            (st.fee_immediate_lamports - st.fee_regular_lamports) :=
          Nat.mul_comm _ _
  by_cases hA : st.decay_duration_seconds ≤ e1
  · have hB : st.decay_duration_seconds ≤ e2 := le_trans hA h12
    simp [calculate_unstake_fee, hd, hA, hB] at h1 h2
    omega
  · by_cases hB : st.decay_duration_seconds ≤ e2
    · have he1 : e1 < st.decay_duration_seconds := by omega
      simp only [calculate_unstake_fee, if_neg hd, if_neg hA, if_pos hB] at h1 h2
      rw [min_mod_u64 _ _ hM] at h1
      have hfee : st.fee_regular_lamports ≤
          st.fee_immediate_lamports -
            satMul128 (st.fee_immediate_lamports - st.fee_regular_lamports) e1 /
              st.decay_duration_seconds := by
        have := hred_le e1 he1
        omega
      have : min st.fee_regular_lamports st.fee_max_lamports ≤
          min (st.fee_immediate_lamports -
            satMul128 (st.fee_immediate_lamports - st.fee_regular_lamports) e1 /
              st.decay_duration_seconds) st.fee_max_lamports :=
        min_le_min hfee le_rfl
      injection h1 with h1e
      injection h2 with h2e
      omega
    · have he1 : e1 < st.decay_duration_seconds := by omega
      have he2 : e2 < st.decay_duration_seconds := by omega
      simp only [calculate_unstake_fee, if_neg hd, if_neg hA, if_neg hB] at h1 h2
      rw [min_mod_u64 _ _ hM] at h1 h2
      have hredmono :
          satMul128 (st.fee_immediate_lamports - st.fee_regular_lamports) e1 /
              st.decay_duration_seconds ≤
            satMul128 (st.fee_immediate_lamports - st.fee_regular_lamports) e2 /
              st.decay_duration_seconds :=
        Nat.div_le_div_right (satMul128_mono_right _ h12)
      have hfee :
          st.fee_immediate_lamports -
              satMul128 (st.fee_immediate_lamports - st.fee_regular_lamports) e2 /
                st.decay_duration_seconds ≤
            st.fee_immediate_lamports -
              satMul128 (st.fee_immediate_lamports - st.fee_regular_lamports) e1 /
                st.decay_duration_seconds := by omega
      have : min (st.fee_immediate_lamports -
            satMul128 (st.fee_immediate_lamports - st.fee_regular_lamports) e2 /
              st.decay_duration_seconds) st.fee_max_lamports ≤
          min (st.fee_immediate_lamports -
            satMul128 (st.fee_immediate_lamports - st.fee_regular_lamports) e1 /
              st.decay_duration_seconds) st.fee_max_lamports :=
        min_le_min hfee le_rfl
      injection h1 with h1e
      injection h2 with h2e
      omega

/-- Witness for the amended C2 at the default configuration. -/
theorem c2_fee_monotone_witness :
    calculate_unstake_fee 0 (defaultProgramState 0) = .ok 100000000 ∧
    calculate_unstake_fee 86400 (defaultProgramState 0) = .ok 1000000 ∧
    (1000000 : Nat) ≤ 100000000 :=
  ⟨by decide, by decide,
    c2_fee_monotone (defaultProgramState 0) (by decide) (by decide) 0 86400
      100000000 1000000 (by decide) (by decide) (by decide)⟩

/-! ## agent-registry: data model and helpers -/

/-- `FLAG_ACTIVE` (bit 0). -/
def FLAG_ACTIVE : Nat := 1

/-- `FLAG_LOCKED` (bit 1). -/
def FLAG_LOCKED : Nat := 2

/-- `FLAG_HAS_STAKING` (bit 2). -/
def FLAG_HAS_STAKING : Nat := 4

/-- The all-zero 32-byte hash `[0u8; 32]`. -/
def zero32 : List Nat := List.replicate 32 0

/-- The bytes of the string "https://". -/
def httpsBytes : List Nat := [104, 116, 116, 112, 115, 58, 47, 47]

/-- The bytes of the string "ipfs://". -/
def ipfsBytes : List Nat := [105, 112, 102, 115, 58, 47, 47]

/-- The bytes of the string "bafy". -/
def bafyBytes : List Nat := [98, 97, 102, 121]

/-- The bytes of the string "Qm". -/
def qmBytes : List Nat := [81, 109]

/-- `write_fixed`: copy `min N src.len()` bytes of `src` into an `N`-byte
buffer and zero-fill the tail. -/
def write_fixed (N : Nat) (src : List Nat) : List Nat :=
  src.take N ++ List.replicate (N - src.length) 0

/-- A UTF-8 continuation byte (`0x80..=0xBF`). -/
def isUtf8Cont (b : Nat) : Bool := 128 ≤ b && b ≤ 191

/-- Fueled worker for `utf8Valid`; consumes at least one byte per unit of
fuel, so fuel `l.length` always suffices. -/
def utf8ValidAux : Nat → List Nat → Bool
  | _, [] => true
  | 0, _ :: _ => false
  | fuel + 1, b :: rest =>
    if b ≤ 127 then utf8ValidAux fuel rest
    else if 194 ≤ b && b ≤ 223 then
      match rest with
      | c1 :: r => isUtf8Cont c1 && utf8ValidAux fuel r
      | [] => false
    else if b = 224 then
      match rest with
      | c1 :: c2 :: r =>
        (160 ≤ c1 && c1 ≤ 191) && isUtf8Cont c2 && utf8ValidAux fuel r
      | _ => false
    else if 225 ≤ b && b ≤ 236 then
      match rest with
      | c1 :: c2 :: r => isUtf8Cont c1 && isUtf8Cont c2 && utf8ValidAux fuel r
      | _ => false
    else if b = 237 then
      match rest with
      | c1 :: c2 :: r =>
        (128 ≤ c1 && c1 ≤ 159) && isUtf8Cont c2 && utf8ValidAux fuel r
      | _ => false
    else if 238 ≤ b && b ≤ 239 then
      match rest with
      | c1 :: c2 :: r => isUtf8Cont c1 && isUtf8Cont c2 && utf8ValidAux fuel r
      | _ => false
    else if b = 240 then
      match rest with
      | c1 :: c2 :: c3 :: r =>
        (144 ≤ c1 && c1 ≤ 191) && isUtf8Cont c2 && isUtf8Cont c3 &&
          utf8ValidAux fuel r
      | _ => false
    else if 241 ≤ b && b ≤ 243 then
      match rest with
      | c1 :: c2 :: c3 :: r =>
        isUtf8Cont c1 && isUtf8Cont c2 && isUtf8Cont c3 && utf8ValidAux fuel r
      | _ => false
    else if b = 244 then
      match rest with
      | c1 :: c2 :: c3 :: r =>
        (128 ≤ c1 && c1 ≤ 143) && isUtf8Cont c2 && isUtf8Cont c3 &&
          utf8ValidAux fuel r
      | _ => false
    else false

/-- Whether a byte sequence is valid UTF-8, i.e. whether Rust's
`core::str::from_utf8` succeeds on it. -/
def utf8Valid (l : List Nat) : Bool := utf8ValidAux l.length l

/-- Base32 lowercase alphabet byte (`'a'..='z' | '2'..='7'`). -/
def isBase32Byte (b : Nat) : Bool :=
  (97 ≤ b && b ≤ 122) || (50 ≤ b && b ≤ 55)

/-- Base58btc alphabet byte
(`'1'..='9' | 'A'..='H' | 'J'..='N' | 'P'..='Z' | 'a'..='k' | 'm'..='z'`). -/
def isBase58Byte (b : Nat) : Bool :=
  (49 ≤ b && b ≤ 57) || (65 ≤ b && b ≤ 72) || (74 ≤ b && b ≤ 78) ||
  (80 ≤ b && b ≤ 90) || (97 ≤ b && b ≤ 107) || (109 ≤ b && b ≤ 122)

/-- The `is_cid_like` block of `set_memory`: decode as UTF-8 and check the
CIDv1 (`bafy` + base32 lowercase) or CIDv0 (`Qm` + base58btc, total length
46) shape.  `str::len` is the byte length, and since the accepted alphabets
are pure ASCII the per-`char` checks coincide with per-byte checks (a
multi-byte char contributes a byte `≥ 0x80`, which is in neither
alphabet). -/
def cid_like (ptr : List Nat) : Bool :=
  if utf8Valid ptr then
    let bytes_ok := decide (0 < ptr.length) && decide (ptr.length ≤ 96)
    if bafyBytes.isPrefixOf ptr then
      bytes_ok && ptr.all isBase32Byte
    else if qmBytes.isPrefixOf ptr then
      bytes_ok && ptr.all isBase58Byte && decide (ptr.length = 46)
    else false
  else false

/-- Error enum of the `agent_registry` program (`AgentError`). -/
inductive AgentError where
  | Unauthorized
  | AdminRequired
  | InvalidOwner
  | InvalidLength
  | InvalidMemoryFields
  | MemoryLocked
  | AgentActive
  | StakingEnabled
  | InsecureUrl
  | AlreadyInitialized
deriving DecidableEq, Repr

/-- The `AgentRegistry` account: identity, memory pointer, card, flags.
Buffers are byte lists (`memory_ptr`/`card_uri` are kept at their full
96-byte zero-padded form, like the fixed arrays in the source). -/
structure AgentRecord where
  version : Nat
  creator : Nat
  owner : Nat
  memory_mode : Nat
  memory_ptr_len : Nat
  memory_ptr : List Nat
  memory_hash : List Nat
  card_uri_len : Nat
  card_uri : List Nat
  card_hash : List Nat
  flags : Nat
  bump : Nat
deriving DecidableEq, Repr

/-- Shared tail of the `Ipns | Manifest | Url` arm of `set_memory`: a hash
is required and must be non-zero; `Url` additionally requires the pointer to
decode as UTF-8 (else `InvalidMemoryFields`) and to start with `https://`
(else `InsecureUrl`). -/
def set_memory_hashed (agent : AgentRecord) (modeVal : Nat) (isUrl : Bool)
    (ptr : List Nat) (hash_opt : Option (List Nat)) :
    Except AgentError AgentRecord :=
  if ptr.isEmpty then .error .InvalidMemoryFields
  else
    match hash_opt with
    | none => .error .InvalidMemoryFields
    | some h =>
      if h = zero32 then .error .InvalidMemoryFields
      else if isUrl ∧ ¬ utf8Valid ptr then .error .InvalidMemoryFields
      else if isUrl ∧ ¬ httpsBytes.isPrefixOf ptr then .error .InsecureUrl
      else .ok { agent with
        memory_hash := h
        memory_mode := modeVal
        memory_ptr_len := ptr.length % 256
        memory_ptr := write_fixed 96 ptr }

/-- `set_memory` from `agent-registry/src/lib.rs`, modelled after the
`UpdateAgent` account constraints have resolved (the caller is the agent's
owner).  The `as u8` cast on the stored pointer length is the `% 256`. -/
def set_memory (agent : AgentRecord) (mode : Nat) (ptr : List Nat)
    (hash_opt : Option (List Nat)) : Except AgentError AgentRecord :=
  if agent.flags &&& FLAG_LOCKED ≠ 0 then .error .MemoryLocked
  else if ¬ ptr.length ≤ 96 then .error .InvalidLength
  else if mode = 0 then
    if ¬ ptr.isEmpty then .error .InvalidMemoryFields
    else if hash_opt.getD zero32 ≠ zero32 then .error .InvalidMemoryFields
    else .ok { agent with
      memory_hash := zero32
      memory_ptr_len := 0
      memory_ptr := List.replicate 96 0
      memory_mode := 0 }
  else if mode = 1 then
    if ptr.isEmpty then .error .InvalidMemoryFields
    else if hash_opt.getD zero32 ≠ zero32 then .error .InvalidMemoryFields
    else if ¬ cid_like ptr then .error .InvalidMemoryFields
    else .ok { agent with
      memory_hash := zero32
      memory_mode := 1
      memory_ptr_len := ptr.length % 256
      memory_ptr := write_fixed 96 ptr }
  else if mode = 2 then set_memory_hashed agent 2 false ptr hash_opt
  else if mode = 3 then set_memory_hashed agent 3 true ptr hash_opt
  else if mode = 4 then set_memory_hashed agent 4 false ptr hash_opt
  else .error .InvalidMemoryFields

/-- `create_agent` from `agent-registry/src/lib.rs`, modelled after the
`CreateAgent` account constraints have resolved (the signer is `creator` and
the derived account was fresh).  Memory validation runs before card
validation, as in the source. -/
def create_agent (creator : Nat) (card_uri : List Nat) (card_hash : List Nat)
    (has_staking : Option Bool) (memory_mode : Option Nat)
    (memory_ptr : Option (List Nat)) (memory_hash : Option (List Nat)) :
    Except AgentError AgentRecord :=
  let base : AgentRecord :=
    { version := 1, creator := creator, owner := creator
      memory_mode := 0, memory_ptr_len := 0
      memory_ptr := List.replicate 96 0, memory_hash := zero32
      card_uri_len := 0, card_uri := List.replicate 96 0, card_hash := zero32
      flags := 0, bump := 0 }
  let memStep : Except AgentError AgentRecord :=
    match memory_mode with
    | some mode =>
      match memory_ptr with
      | some ptr =>
        if ¬ (0 < ptr.length ∧ ptr.length ≤ 96) then .error .InvalidLength
        else if ¬ mode ≤ 3 then .error .InvalidMemoryFields
        else
          let stored : AgentRecord :=
            { base with
              memory_mode := mode
              memory_ptr_len := ptr.length % 256
              memory_ptr := write_fixed 96 ptr
              memory_hash := memory_hash.getD zero32 }
          if mode = 3 then
            if utf8Valid ptr then
              if httpsBytes.isPrefixOf ptr then .ok stored
              else .error .InsecureUrl
            else .error .InvalidMemoryFields
          else .ok stored
      | none => .error .InvalidMemoryFields
    | none => .ok base
  match memStep with
  | .error e => .error e
  | .ok a1 =>
    if ¬ (0 < card_uri.length ∧ card_uri.length ≤ 96) then .error .InvalidLength
    else if ¬ (httpsBytes.isPrefixOf card_uri ∨ ipfsBytes.isPrefixOf card_uri)
    then .error .InsecureUrl
    else .ok { a1 with
      card_uri_len := card_uri.length % 256
      card_uri := write_fixed 96 card_uri
      card_hash := card_hash
      flags :=
        FLAG_ACTIVE ||| (if has_staking.getD true then FLAG_HAS_STAKING else 0) }

/-- `set_card` (owner-authorized). -/
def set_card (agent : AgentRecord) (card_uri : List Nat)
    (card_hash : List Nat) : Except AgentError AgentRecord :=
  if ¬ (0 < card_uri.length ∧ card_uri.length ≤ 96) then .error .InvalidLength
  else if ¬ (httpsBytes.isPrefixOf card_uri ∨ ipfsBytes.isPrefixOf card_uri)
  then .error .InsecureUrl
  else .ok { agent with
    card_uri_len := card_uri.length % 256
    card_uri := write_fixed 96 card_uri
    card_hash := card_hash }

/-- `lock_memory`: sets the `LOCKED` bit; never fails. -/
def lock_memory (agent : AgentRecord) : Except AgentError AgentRecord :=
  .ok { agent with flags := agent.flags ||| FLAG_LOCKED }

/-- `set_active`: sets or clears only the `ACTIVE` bit
(`flags &= !FLAG_ACTIVE` is the u32 mask `0xFFFFFFFE`). -/
def set_active (agent : AgentRecord) (is_active : Bool) :
    Except AgentError AgentRecord :=
  if is_active then .ok { agent with flags := agent.flags ||| FLAG_ACTIVE }
  else .ok { agent with flags := agent.flags &&& 4294967294 }

/-- `transfer_owner`: `Pubkey::default()` is the zero key. -/
def transfer_owner (agent : AgentRecord) (new_owner : Nat) :
    Except AgentError AgentRecord :=
  if new_owner = 0 then .error .InvalidOwner
  else .ok { agent with owner := new_owner }

/-- `close_agent`: succeeds (destroying the record) only with `ACTIVE` and
`HAS_STAKING` both clear. -/
def close_agent (agent : AgentRecord) : Except AgentError Unit :=
  if agent.flags &&& FLAG_ACTIVE ≠ 0 then .error .AgentActive
  else if agent.flags &&& FLAG_HAS_STAKING ≠ 0 then .error .StakingEnabled
  else .ok ()

/-! ## agent-registry: operation traces -/

/-- The owner-authorized mutating operations that keep the agent record
alive (`close_agent` destroys the record, so a closed agent has no later
state). -/
inductive AgentOp where
  | setCard (uri hash : List Nat)
  | setMemory (mode : Nat) (ptr : List Nat) (hash_opt : Option (List Nat))
  | lockMemory
  | setActive (b : Bool)
  | transferOwner (o : Nat)
deriving DecidableEq, Repr

/-- Apply one operation; a failed operation aborts atomically and leaves the
record unchanged. -/
def applyAgentOp (a : AgentRecord) (op : AgentOp) : AgentRecord :=
  match op with
  | .setCard u h =>
    match set_card a u h with
    | .ok a' => a'
    | .error _ => a
  | .setMemory m p ho =>
    match set_memory a m p ho with
    | .ok a' => a'
    | .error _ => a
  | .lockMemory =>
    match lock_memory a with
    | .ok a' => a'
    | .error _ => a
  | .setActive b =>
    match set_active a b with
    | .ok a' => a'
    | .error _ => a
  | .transferOwner o =>
    match transfer_owner a o with
    | .ok a' => a'
    | .error _ => a

/-- Run a sequence of operations. -/
def runAgentOps (a : AgentRecord) (ops : List AgentOp) : AgentRecord :=
  ops.foldl applyAgentOp a

/-! ### Flag bit lemmas -/

theorem land_locked_iff (x : Nat) : x &&& FLAG_LOCKED ≠ 0 ↔ x.testBit 1 := by
  have h2 : FLAG_LOCKED = 2 ^ 1 := rfl
  rw [h2, Nat.and_two_pow]
  cases hb : x.testBit 1 <;> simp

theorem locked_lor (x c : Nat) (h : x &&& FLAG_LOCKED ≠ 0) :
    (x ||| c) &&& FLAG_LOCKED ≠ 0 := by
  rw [land_locked_iff] at h ⊢
  rw [Nat.testBit_lor, h]
  simp

theorem locked_mask_active (x : Nat) (h : x &&& FLAG_LOCKED ≠ 0) :
    (x &&& 4294967294) &&& FLAG_LOCKED ≠ 0 := by
  rw [land_locked_iff] at h ⊢
  rw [Nat.testBit_land, h]
  decide

/-- Every single operation preserves the `LOCKED` bit. -/
theorem applyAgentOp_locked (a : AgentRecord) (op : AgentOp)
    (hL : a.flags &&& FLAG_LOCKED ≠ 0) :
    (applyAgentOp a op).flags &&& FLAG_LOCKED ≠ 0 := by
  cases op with
  | setCard u h =>
    cases hres : set_card a u h with
    | error e => simp only [applyAgentOp, hres]; exact hL
    | ok a' =>
      simp only [applyAgentOp, hres]
      unfold set_card at hres
      split at hres
      · cases hres
      · split at hres
        · cases hres
        · injection hres with he
          subst he
          exact hL
  | setMemory m p ho =>
    have hmem : set_memory a m p ho = .error .MemoryLocked := by
      unfold set_memory
      rw [if_pos hL]
    simp only [applyAgentOp, hmem]
    exact hL
  | lockMemory =>
    simp only [applyAgentOp, lock_memory]
    exact locked_lor _ _ hL
  | setActive b =>
    cases b with
    | true =>
      simp only [applyAgentOp, set_active, if_pos]
      exact locked_lor _ _ hL
    | false =>
      simp only [applyAgentOp, set_active, if_neg]
      exact locked_mask_active _ hL
  | transferOwner o =>
    by_cases ho : o = 0
    · simp only [applyAgentOp, transfer_owner, if_pos ho]
      exact hL
    · simp only [applyAgentOp, transfer_owner, if_neg ho]
      exact hL

/-- C8: once the `LOCKED` flag is set it stays set across every sequence of
successful or failing operations, and `set_memory` on any such state fails
with `MemoryLocked` for all inputs. -/
theorem c8_lock_monotonic (a : AgentRecord) (hL : a.flags &&& FLAG_LOCKED ≠ 0)
    (ops : List AgentOp) :
    (runAgentOps a ops).flags &&& FLAG_LOCKED ≠ 0 ∧
    ∀ mode ptr hash_opt,
      set_memory (runAgentOps a ops) mode ptr hash_opt =
        .error .MemoryLocked := by
  have main : ∀ (l : List AgentOp) (b : AgentRecord),
      b.flags &&& FLAG_LOCKED ≠ 0 →
      (runAgentOps b l).flags &&& FLAG_LOCKED ≠ 0 := by
    intro l
    induction l with
    | nil => intro b hb; exact hb
    | cons op rest ih =>
      intro b hb
      exact ih (applyAgentOp b op) (applyAgentOp_locked b op hb)
  refine ⟨main ops a hL, fun mode ptr hash_opt => ?_⟩
  unfold set_memory
  rw [if_pos (main ops a hL)]

/-- A concrete locked agent record (`flags = ACTIVE | LOCKED`). -/
def lockedAgent : AgentRecord :=
  { version := 1, creator := 5, owner := 5
    memory_mode := 0, memory_ptr_len := 0
    memory_ptr := List.replicate 96 0, memory_hash := zero32
    card_uri_len := 9, card_uri := write_fixed 96 (httpsBytes ++ [120])
    card_hash := zero32, flags := 3, bump := 0 }

/-- Witness for C8 on a concrete locked agent and trace. -/
theorem c8_lock_monotonic_witness :
    (runAgentOps lockedAgent [AgentOp.setActive false]).flags &&&
        FLAG_LOCKED ≠ 0 ∧
    set_memory (runAgentOps lockedAgent [AgentOp.setActive false]) 0 [] none =
      .error .MemoryLocked :=
  ⟨(c8_lock_monotonic lockedAgent (by decide) [AgentOp.setActive false]).1,
   (c8_lock_monotonic lockedAgent (by decide) [AgentOp.setActive false]).2
     0 [] none⟩

/-! ## C4: the §4.1 memory shape invariant -/

/-- The mode-specific shape rules of the §4.1 table, read off the stored
record: `None` has an empty pointer and zero hash; `Cid` a shape-valid CID
pointer and zero hash; `Ipns`/`Manifest` a non-empty pointer and non-zero
hash; `Url` a non-empty `https://` pointer and non-zero hash. -/
def memOk (a : AgentRecord) : Bool :=
  if a.memory_mode = 0 then
    decide (a.memory_ptr_len = 0) && decide (a.memory_hash = zero32)
  else if a.memory_mode = 1 then
    cid_like (a.memory_ptr.take a.memory_ptr_len) &&
      decide (a.memory_hash = zero32)
  else if a.memory_mode = 2 ∨ a.memory_mode = 4 then
    decide (0 < a.memory_ptr_len) && decide (a.memory_hash ≠ zero32)
  else if a.memory_mode = 3 then
    decide (0 < a.memory_ptr_len) &&
      httpsBytes.isPrefixOf (a.memory_ptr.take a.memory_ptr_len) &&
      decide (a.memory_hash ≠ zero32)
  else false

/-- C4 counterexample: `create_agent` accepts memory mode `None` together
with a non-empty pointer (it only checks `len ∈ (0, 96]`, `mode ≤ 3`, and
`https://` for `Url`), so the state immediately after a successful
`CreateAgent` can violate the §4.1 table. -/
theorem c4_memory_invariant_cex :
    (create_agent 1 (httpsBytes ++ [120]) zero32 none (some 0) (some [104])
        none).map memOk = .ok false := by decide

theorem write_fixed_take (ptr : List Nat) (h : ptr.length ≤ 96) :
    (write_fixed 96 ptr).take ptr.length = ptr := by
  unfold write_fixed
  rw [List.take_of_length_le h]
  exact List.take_left ptr _

theorem len_mod_256 (ptr : List Nat) (h : ptr.length ≤ 96) :
    ptr.length % 256 = ptr.length :=
  Nat.mod_eq_of_lt (by omega)

/-- A successful `set_memory_hashed` (the `Ipns | Manifest | Url` arm)
establishes the §4.1 shape rules. -/
theorem set_memory_hashed_memOk (a : AgentRecord) (modeVal : Nat)
    (isUrl : Bool) (p : List Nat) (ho : Option (List Nat)) (a' : AgentRecord)
    (hmv : ((modeVal = 2 ∨ modeVal = 4) ∧ isUrl = false) ∨
      (modeVal = 3 ∧ isUrl = true))
    (hle : p.length ≤ 96)
    (h : set_memory_hashed a modeVal isUrl p ho = .ok a') :
    memOk a' = true := by
  unfold set_memory_hashed at h
  split at h
  · cases h
  rename_i hne
  cases ho with
  | none => cases h
  | some h0 =>
    simp only at h
    split at h
    · cases h
    rename_i hz
    split at h
    · cases h
    rename_i hurl1
    split at h
    · cases h
    rename_i hurl2
    injection h with he
    subst he
    have hmod : p.length % 256 = p.length := len_mod_256 p hle
    have hpos : 0 < p.length :=
      List.length_pos.mpr (by simpa [List.isEmpty_iff] using hne)
    rcases hmv with ⟨hm24, hu⟩ | ⟨hm3, hu⟩
    · subst hu
      rcases hm24 with hm | hm <;> subst hm <;> simp [memOk, hmod, hpos, hz]
    · subst hu
      subst hm3
      have hpre : httpsBytes.isPrefixOf p = true := by
        by_contra hnp
        exact hurl2 ⟨rfl, by simpa using hnp⟩
      simp [memOk, hmod, write_fixed_take p hle, hpos, hz, hpre]

/-- A successful `set_memory` always establishes the §4.1 shape rules. -/
theorem set_memory_ok_memOk (a : AgentRecord) (m : Nat) (p : List Nat)
    (ho : Option (List Nat)) (a' : AgentRecord)
    (h : set_memory a m p ho = .ok a') : memOk a' = true := by
  unfold set_memory at h
  split at h
  · cases h
  split at h
  · cases h
  rename_i hlocked hlen
  have hle : p.length ≤ 96 := by omega
  have hmod : p.length % 256 = p.length := len_mod_256 p hle
  split at h
  · -- mode 0
    split at h
    · cases h
    split at h
    · cases h
    injection h with he
    subst he
    simp [memOk]
  · split at h
    · -- mode 1 (Cid)
      split at h
      · cases h
      split at h
      · cases h
      split at h
      · cases h
      rename_i hne hhash hcid
      injection h with he
      subst he
      simp only [memOk]
      norm_num
      simp only [hmod, write_fixed_take p hle]
      simp only [not_not] at hcid
      simp [hcid]
    · split at h
      · -- mode 2 (Ipns)
        exact set_memory_hashed_memOk a 2 false p ho a' (by decide) hle h
      · split at h
        · -- mode 3 (Url)
          exact set_memory_hashed_memOk a 3 true p ho a' (by decide) hle h
        · split at h
          · -- mode 4 (Manifest)
            exact set_memory_hashed_memOk a 4 false p ho a' (by decide) hle h
          · -- invalid mode
            cases h

/-- Every operation preserves the §4.1 shape rules: `set_memory`
re-establishes them and no other operation touches the memory fields. -/
theorem applyAgentOp_memOk (a : AgentRecord) (op : AgentOp)
    (hm : memOk a = true) : memOk (applyAgentOp a op) = true := by
  cases op with
  | setCard u h =>
    cases hres : set_card a u h with
    | error e => simp only [applyAgentOp, hres]; exact hm
    | ok a' =>
      simp only [applyAgentOp, hres]
      unfold set_card at hres
      split at hres
      · cases hres
      · split at hres
        · cases hres
        · injection hres with he
          subst he
          exact hm
  | setMemory m p ho =>
    cases hres : set_memory a m p ho with
    | error e => simp only [applyAgentOp, hres]; exact hm
    | ok a' =>
      simp only [applyAgentOp, hres]
      exact set_memory_ok_memOk a m p ho a' hres
  | lockMemory =>
    simp only [applyAgentOp, lock_memory]
    exact hm
  | setActive b =>
    cases b with
    | true => simp only [applyAgentOp, set_active, if_pos]; exact hm
    | false => simp only [applyAgentOp, set_active, if_neg]; exact hm
  | transferOwner o =>
    by_cases ho : o = 0
    · simp only [applyAgentOp, transfer_owner, if_pos ho]; exact hm
    · simp only [applyAgentOp, transfer_owner, if_neg ho]; exact hm

/-- C4 (amended): every state reachable from a `create_agent` call that
supplied no memory arguments satisfies the §4.1 table; `create_agent` with
memory arguments enforces only the weaker creation checks and can store
violating combinations (see the counterexample). -/
theorem c4_memory_invariant (creator : Nat) (uri hash : List Nat)
    (hs : Option Bool) (a : AgentRecord)
    (hc : create_agent creator uri hash hs none none none = .ok a)
    (ops : List AgentOp) : memOk (runAgentOps a ops) = true := by
  have h0 : memOk a = true := by
    unfold create_agent at hc
    simp only at hc
    split at hc
    · cases hc
    split at hc
    · cases hc
    injection hc with he
    subst he
    simp [memOk]
  have main : ∀ (l : List AgentOp) (b : AgentRecord), memOk b = true →
      memOk (runAgentOps b l) = true := by
    intro l
    induction l with
    | nil => intro b hb; exact hb
    | cons op rest ih =>
      intro b hb
      exact ih (applyAgentOp b op) (applyAgentOp_memOk b op hb)
  exact main ops a h0

/-- The record produced by
`create_agent 1 "https://x" zero32 none none none none`. -/
def freshAgent : AgentRecord :=
  { version := 1, creator := 1, owner := 1
    memory_mode := 0, memory_ptr_len := 0
    memory_ptr := List.replicate 96 0, memory_hash := zero32
    card_uri_len := 9, card_uri := write_fixed 96 (httpsBytes ++ [120])
    card_hash := zero32, flags := 5, bump := 0 }

/-- Witness for the amended C4 on a concrete creation and trace. -/
theorem c4_memory_invariant_witness :
    memOk (runAgentOps freshAgent [AgentOp.lockMemory]) = true :=
  c4_memory_invariant 1 (httpsBytes ++ [120]) zero32 none freshAgent
    (by decide) [AgentOp.lockMemory]

/-! ## C5: the SetMemory acceptance table -/

/-- The §4.1 acceptance table exactly as the claim states it (note: no
pointer-length bound outside the `Cid` row, no UTF-8 requirement). -/
def claimMemoryTableOk (mode : Nat) (ptr : List Nat)
    (hash_opt : Option (List Nat)) : Bool :=
  if mode = 0 then ptr.isEmpty && decide (hash_opt.getD zero32 = zero32)
  else if mode = 1 then
    !ptr.isEmpty && decide (ptr.length ≤ 96) && cid_like ptr &&
      decide (hash_opt.getD zero32 = zero32)
  else if mode = 2 ∨ mode = 4 then
    !ptr.isEmpty &&
      (match hash_opt with
       | some h => decide (h ≠ zero32)
       | none => false)
  else if mode = 3 then
    !ptr.isEmpty && httpsBytes.isPrefixOf ptr &&
      (match hash_opt with
       | some h => decide (h ≠ zero32)
       | none => false)
  else false

/-- The inputs `set_memory` actually accepts: additionally to the table,
every pointer is capped at 96 bytes (failing `InvalidLength`, an error the
claim does not list) and a `Url` pointer must decode as UTF-8. -/
def setMemoryAccepted (mode : Nat) (ptr : List Nat)
    (hash_opt : Option (List Nat)) : Bool :=
  decide (ptr.length ≤ 96) &&
  (if mode = 0 then ptr.isEmpty && decide (hash_opt.getD zero32 = zero32)
   else if mode = 1 then
     !ptr.isEmpty && decide (hash_opt.getD zero32 = zero32) && cid_like ptr
   else if mode = 2 ∨ mode = 4 then
     !ptr.isEmpty &&
       (match hash_opt with
        | some h => decide (h ≠ zero32)
        | none => false)
   else if mode = 3 then
     !ptr.isEmpty &&
       (match hash_opt with
        | some h => decide (h ≠ zero32)
        | none => false) &&
       (utf8Valid ptr && httpsBytes.isPrefixOf ptr)
   else false)

/-- C5 counterexample: a 97-byte `Ipns` pointer with a non-zero hash matches
the claim's table row (non-empty pointer, non-zero hash) yet `set_memory`
rejects it, and with `InvalidLength`, an error outside the claim's list. -/
theorem c5_memory_table_cex :
    claimMemoryTableOk 2 (List.replicate 97 97)
        (some (1 :: List.replicate 31 0)) = true ∧
    set_memory freshAgent 2 (List.replicate 97 97)
        (some (1 :: List.replicate 31 0)) = .error .InvalidLength := by decide

/-- On failure paths, `set_memory_hashed` succeeds exactly on a non-empty
pointer with a supplied non-zero hash, plus UTF-8 and `https://` when
`isUrl`. -/
theorem set_memory_hashed_isOk (a : AgentRecord) (mv : Nat) (isUrl : Bool)
    (ptr : List Nat) (ho : Option (List Nat)) :
    (set_memory_hashed a mv isUrl ptr ho).isOk =
      (!ptr.isEmpty &&
        (match ho with
         | some h => decide (h ≠ zero32)
         | none => false) &&
        (!isUrl || (utf8Valid ptr && httpsBytes.isPrefixOf ptr))) := by
  unfold set_memory_hashed
  cases ho with
  | none =>
    by_cases hemp : ptr.isEmpty = true <;>
      simp [hemp, Except.isOk, Except.toBool]
  | some h0 =>
    by_cases hemp : ptr.isEmpty = true <;>
      by_cases hz : h0 = zero32 <;>
      cases isUrl <;>
      by_cases hutf : utf8Valid ptr = true <;>
      by_cases hpre : httpsBytes.isPrefixOf ptr = true <;>
      simp [hemp, hz, hutf, hpre, Except.isOk, Except.toBool]

/-- Any error produced by `set_memory_hashed` is `InvalidMemoryFields` or
`InsecureUrl`. -/
theorem set_memory_hashed_err (a : AgentRecord) (mv : Nat) (isUrl : Bool)
    (ptr : List Nat) (ho : Option (List Nat)) (e : AgentError)
    (he : set_memory_hashed a mv isUrl ptr ho = .error e) :
    e = .InvalidMemoryFields ∨ e = .InsecureUrl := by
  unfold set_memory_hashed at he
  cases ho with
  | none => split_ifs at he <;> simp_all
  | some h0 =>
    by_cases hz : h0 = zero32 <;> split_ifs at he <;> simp_all

/-- C5 (amended): on an unlocked agent, `set_memory` succeeds exactly on the
inputs of `setMemoryAccepted` (the claim's table plus the 96-byte cap and
UTF-8 for `Url`), and every rejected input fails with
`InvalidMemoryFields`, `InsecureUrl`, or `InvalidLength`. -/
theorem c5_memory_table (a : AgentRecord) (hL : a.flags &&& FLAG_LOCKED = 0)
    (mode : Nat) (ptr : List Nat) (hash_opt : Option (List Nat)) :
    ((set_memory a mode ptr hash_opt).isOk =
      setMemoryAccepted mode ptr hash_opt) ∧
    (setMemoryAccepted mode ptr hash_opt = false →
      set_memory a mode ptr hash_opt = .error .InvalidMemoryFields ∨
      set_memory a mode ptr hash_opt = .error .InsecureUrl ∨
      set_memory a mode ptr hash_opt = .error .InvalidLength) := by
  have hnL : ¬ a.flags &&& FLAG_LOCKED ≠ 0 := not_not_intro hL
  by_cases hlen : ptr.length ≤ 96
  · have hnlen : ¬¬ ptr.length ≤ 96 := not_not_intro hlen
    by_cases hm0 : mode = 0
    · subst hm0
      by_cases hemp : ptr.isEmpty = true
      · by_cases hz : hash_opt.getD zero32 = zero32
        · have key : set_memory a 0 ptr hash_opt = .ok { a with
              memory_hash := zero32, memory_ptr_len := 0,
              memory_ptr := List.replicate 96 0, memory_mode := 0 } := by
            unfold set_memory
            rw [if_neg hnL, if_neg hnlen, if_pos rfl,
              if_neg (not_not_intro hemp), if_neg (not_not_intro hz)]
          refine ⟨?_, fun hacc => ?_⟩
          · rw [key]
            unfold setMemoryAccepted
            simp [hlen, hemp, hz, Except.isOk, Except.toBool]
          · unfold setMemoryAccepted at hacc
            simp [hlen, hemp, hz] at hacc
        · have key : set_memory a 0 ptr hash_opt =
              .error .InvalidMemoryFields := by
            unfold set_memory
            rw [if_neg hnL, if_neg hnlen, if_pos rfl,
              if_neg (not_not_intro hemp), if_pos hz]
          refine ⟨?_, fun _ => Or.inl key⟩
          rw [key]
          unfold setMemoryAccepted
          simp [hlen, hemp, hz, Except.isOk, Except.toBool]
      · have key : set_memory a 0 ptr hash_opt =
            .error .InvalidMemoryFields := by
          unfold set_memory
          rw [if_neg hnL, if_neg hnlen, if_pos rfl, if_pos hemp]
        refine ⟨?_, fun _ => Or.inl key⟩
        rw [key]
        unfold setMemoryAccepted
        simp [hlen, hemp, Except.isOk, Except.toBool]
    · by_cases hm1 : mode = 1
      · subst hm1
        by_cases hemp : ptr.isEmpty = true
        · have key : set_memory a 1 ptr hash_opt =
              .error .InvalidMemoryFields := by
            unfold set_memory
            rw [if_neg hnL, if_neg hnlen, if_neg (by decide), if_pos rfl,
              if_pos hemp]
          refine ⟨?_, fun _ => Or.inl key⟩
          rw [key]
          unfold setMemoryAccepted
          simp [hlen, hemp, Except.isOk, Except.toBool]
        · by_cases hz : hash_opt.getD zero32 = zero32
          · by_cases hcid : cid_like ptr = true
            · have key : set_memory a 1 ptr hash_opt = .ok { a with
                  memory_hash := zero32, memory_mode := 1,
                  memory_ptr_len := ptr.length % 256,
                  memory_ptr := write_fixed 96 ptr } := by
                unfold set_memory
                rw [if_neg hnL, if_neg hnlen, if_neg (by decide), if_pos rfl,
                  if_neg hemp, if_neg (not_not_intro hz),
                  if_neg (not_not_intro hcid)]
              refine ⟨?_, fun hacc => ?_⟩
              · rw [key]
                unfold setMemoryAccepted
                simp [hlen, hemp, hz, hcid, Except.isOk, Except.toBool]
              · unfold setMemoryAccepted at hacc
                simp [hlen, hemp, hz, hcid] at hacc
            · have key : set_memory a 1 ptr hash_opt =
                  .error .InvalidMemoryFields := by
                unfold set_memory
                rw [if_neg hnL, if_neg hnlen, if_neg (by decide), if_pos rfl,
                  if_neg hemp, if_neg (not_not_intro hz), if_pos hcid]
              refine ⟨?_, fun _ => Or.inl key⟩
              rw [key]
              unfold setMemoryAccepted
              simp [hlen, hemp, hz, hcid, Except.isOk, Except.toBool]
          · have key : set_memory a 1 ptr hash_opt =
                .error .InvalidMemoryFields := by
              unfold set_memory
              rw [if_neg hnL, if_neg hnlen, if_neg (by decide), if_pos rfl,
                if_neg hemp, if_pos hz]
            refine ⟨?_, fun _ => Or.inl key⟩
            rw [key]
            unfold setMemoryAccepted
            simp [hlen, hemp, hz, Except.isOk, Except.toBool]
      · by_cases hm2 : mode = 2
        · subst hm2
          have keyeq : set_memory a 2 ptr hash_opt =
              set_memory_hashed a 2 false ptr hash_opt := by
            unfold set_memory
            rw [if_neg hnL, if_neg hnlen, if_neg (by decide),
              if_neg (by decide), if_pos rfl]
          have hOkEq : (set_memory a 2 ptr hash_opt).isOk =
              setMemoryAccepted 2 ptr hash_opt := by
            rw [keyeq, set_memory_hashed_isOk]
            unfold setMemoryAccepted
            simp [hlen]
          refine ⟨hOkEq, fun hacc => ?_⟩
          cases hres : set_memory_hashed a 2 false ptr hash_opt with
          | ok a' =>
            rw [keyeq, hres] at hOkEq
            rw [hacc] at hOkEq
            simp [Except.isOk, Except.toBool] at hOkEq
          | error e =>
            rw [keyeq, hres]
            rcases set_memory_hashed_err a 2 false ptr hash_opt e hres
              with h | h <;> subst h
            · exact Or.inl rfl
            · exact Or.inr (Or.inl rfl)
        · by_cases hm3 : mode = 3
          · subst hm3
            have keyeq : set_memory a 3 ptr hash_opt =
                set_memory_hashed a 3 true ptr hash_opt := by
              unfold set_memory
              rw [if_neg hnL, if_neg hnlen, if_neg (by decide),
                if_neg (by decide), if_neg (by decide), if_pos rfl]
            have hOkEq : (set_memory a 3 ptr hash_opt).isOk =
                setMemoryAccepted 3 ptr hash_opt := by
              rw [keyeq, set_memory_hashed_isOk]
              unfold setMemoryAccepted
              simp [hlen]
            refine ⟨hOkEq, fun hacc => ?_⟩
            cases hres : set_memory_hashed a 3 true ptr hash_opt with
            | ok a' =>
              rw [keyeq, hres] at hOkEq
              rw [hacc] at hOkEq
              simp [Except.isOk, Except.toBool] at hOkEq
            | error e =>
              rw [keyeq, hres]
              rcases set_memory_hashed_err a 3 true ptr hash_opt e hres
                with h | h <;> subst h
              · exact Or.inl rfl
              · exact Or.inr (Or.inl rfl)
          · by_cases hm4 : mode = 4
            · subst hm4
              have keyeq : set_memory a 4 ptr hash_opt =
                  set_memory_hashed a 4 false ptr hash_opt := by
                unfold set_memory
                rw [if_neg hnL, if_neg hnlen, if_neg (by decide),
                  if_neg (by decide), if_neg (by decide), if_neg (by decide),
                  if_pos rfl]
              have hOkEq : (set_memory a 4 ptr hash_opt).isOk =
                  setMemoryAccepted 4 ptr hash_opt := by
                rw [keyeq, set_memory_hashed_isOk]
                unfold setMemoryAccepted
                simp [hlen]
              refine ⟨hOkEq, fun hacc => ?_⟩
              cases hres : set_memory_hashed a 4 false ptr hash_opt with
              | ok a' =>
                rw [keyeq, hres] at hOkEq
                rw [hacc] at hOkEq
                simp [Except.isOk, Except.toBool] at hOkEq
              | error e =>
                rw [keyeq, hres]
                rcases set_memory_hashed_err a 4 false ptr hash_opt e hres
                  with h | h <;> subst h
                · exact Or.inl rfl
                · exact Or.inr (Or.inl rfl)
            · have key : set_memory a mode ptr hash_opt =
                  .error .InvalidMemoryFields := by
                unfold set_memory
                rw [if_neg hnL, if_neg hnlen, if_neg hm0, if_neg hm1,
                  if_neg hm2, if_neg hm3, if_neg hm4]
              refine ⟨?_, fun _ => Or.inl key⟩
              rw [key]
              unfold setMemoryAccepted
              simp [hlen, hm0, hm1, hm2, hm3, hm4, Except.isOk, Except.toBool]
  · have key : set_memory a mode ptr hash_opt = .error .InvalidLength := by
      unfold set_memory
      rw [if_neg hnL, if_pos hlen]
    refine ⟨?_, fun _ => Or.inr (Or.inr key)⟩
    rw [key]
    unfold setMemoryAccepted
    simp [hlen, Except.isOk, Except.toBool]

/-- A shape-valid CIDv0 pointer: "Qm" followed by 44 base58 characters. -/
def sampleCid : List Nat := qmBytes ++ List.replicate 44 49

/-- Witness for the amended C5: a valid `Cid` update on a concrete unlocked
agent. -/
theorem c5_memory_table_witness :
    ((set_memory freshAgent 1 sampleCid none).isOk =
      setMemoryAccepted 1 sampleCid none) ∧
    (setMemoryAccepted 1 sampleCid none = false →
      set_memory freshAgent 1 sampleCid none = .error .InvalidMemoryFields ∨
      set_memory freshAgent 1 sampleCid none = .error .InsecureUrl ∨
      set_memory freshAgent 1 sampleCid none = .error .InvalidLength) :=
  c5_memory_table freshAgent (by decide) 1 sampleCid none

/-! ## C9: card URI validation and round-trip -/

/-- A card URI the programs accept: non-empty, at most 96 bytes, scheme
`https://` or `ipfs://`. -/
def cardUriOk (uri : List Nat) : Bool :=
  decide (0 < uri.length) && decide (uri.length ≤ 96) &&
  (httpsBytes.isPrefixOf uri || ipfsBytes.isPrefixOf uri)

/-- C9 counterexample: `create_agent` can fail with `InvalidLength` even on
a perfectly valid `cardUri` (here because the optional memory pointer is
empty), so "fails exactly when the cardUri is invalid" is false for
`CreateAgent`. -/
theorem c9_card_cex :
    cardUriOk (httpsBytes ++ [120]) = true ∧
    create_agent 1 (httpsBytes ++ [120]) zero32 none (some 0) (some []) none =
      .error .InvalidLength := by decide

/-- C9 (amended): `set_card` fails with `InvalidLength`/`InsecureUrl`
exactly when the card URI is empty, longer than 96 bytes, or lacks an
allowed scheme, and `create_agent` does the same when its memory arguments
are absent (with memory arguments it can fail for memory reasons even on a
valid card URI); every accepted URI is stored zero-padded and round-trips
exactly. -/
theorem c9_card_roundtrip (a : AgentRecord) (creator : Nat)
    (uri hash : List Nat) (hs : Option Bool) :
    ((set_card a uri hash).isOk = cardUriOk uri) ∧
    (cardUriOk uri = false →
      set_card a uri hash = .error .InvalidLength ∨
      set_card a uri hash = .error .InsecureUrl) ∧
    (∀ a', set_card a uri hash = .ok a' →
      a'.card_uri = uri ++ List.replicate (96 - uri.length) 0 ∧
      a'.card_uri_len = uri.length ∧
      a'.card_uri.take a'.card_uri_len = uri ∧
      a'.card_hash = hash) ∧
    ((create_agent creator uri hash hs none none none).isOk = cardUriOk uri) ∧
    (∀ a', create_agent creator uri hash hs none none none = .ok a' →
      a'.card_uri = uri ++ List.replicate (96 - uri.length) 0 ∧
      a'.card_uri_len = uri.length ∧
      a'.card_uri.take a'.card_uri_len = uri) := by
  have key_ca : create_agent creator uri hash hs none none none =
      (if ¬ (0 < uri.length ∧ uri.length ≤ 96) then .error .InvalidLength
       else if ¬ (httpsBytes.isPrefixOf uri ∨ ipfsBytes.isPrefixOf uri) then
         .error .InsecureUrl
       else .ok ⟨1, creator, creator, 0, 0, List.replicate 96 0, zero32,
         uri.length % 256, write_fixed 96 uri, hash,
         FLAG_ACTIVE ||| (if hs.getD true then FLAG_HAS_STAKING else 0),
         0⟩) := rfl
  by_cases hl : 0 < uri.length ∧ uri.length ≤ 96
  · by_cases hp : (httpsBytes.isPrefixOf uri : Prop) ∨ ipfsBytes.isPrefixOf uri
    · have hor : (httpsBytes.isPrefixOf uri || ipfsBytes.isPrefixOf uri)
          = true := by
        rcases hp with h | h <;> simp [h]
      have hcard : cardUriOk uri = true := by
        simp [cardUriOk, hl.1, hl.2, hor]
      have key_sc : set_card a uri hash = .ok { a with
          card_uri_len := uri.length % 256
          card_uri := write_fixed 96 uri
          card_hash := hash } := by
        unfold set_card
        rw [if_neg (not_not_intro hl), if_neg (not_not_intro hp)]
      rw [key_ca, if_neg (not_not_intro hl), if_neg (not_not_intro hp)]
      refine ⟨?_, ?_, ?_, ?_, ?_⟩
      · rw [key_sc, hcard]
        rfl
      · intro hacc
        rw [hcard] at hacc
        cases hacc
      · intro a' ha
        rw [key_sc] at ha
        injection ha with he
        subst he
        refine ⟨?_, ?_, ?_, rfl⟩
        · show write_fixed 96 uri = uri ++ List.replicate (96 - uri.length) 0
          unfold write_fixed
          rw [List.take_of_length_le hl.2]
        · exact len_mod_256 uri hl.2
        · show (write_fixed 96 uri).take (uri.length % 256) = uri
          rw [len_mod_256 uri hl.2]
          exact write_fixed_take uri hl.2
      · rw [hcard]
        rfl
      · intro a' ha
        injection ha with he
        subst he
        refine ⟨?_, ?_, ?_⟩
        · show write_fixed 96 uri = uri ++ List.replicate (96 - uri.length) 0
          unfold write_fixed
          rw [List.take_of_length_le hl.2]
        · exact len_mod_256 uri hl.2
        · show (write_fixed 96 uri).take (uri.length % 256) = uri
          rw [len_mod_256 uri hl.2]
          exact write_fixed_take uri hl.2
    · have hA : httpsBytes.isPrefixOf uri = false :=
        Bool.eq_false_iff.mpr (fun h => hp (Or.inl h))
      have hB : ipfsBytes.isPrefixOf uri = false :=
        Bool.eq_false_iff.mpr (fun h => hp (Or.inr h))
      have hcard : cardUriOk uri = false := by
        simp [cardUriOk, hA, hB]
      have key_sc : set_card a uri hash = .error .InsecureUrl := by
        unfold set_card
        rw [if_neg (not_not_intro hl), if_pos hp]
      rw [key_ca, if_neg (not_not_intro hl), if_pos hp]
      refine ⟨?_, fun _ => Or.inr key_sc, ?_, ?_, ?_⟩
      · rw [key_sc, hcard]
        rfl
      · intro a' ha
        rw [key_sc] at ha
        cases ha
      · rw [hcard]
        rfl
      · intro a' ha
        cases ha
  · have hcard : cardUriOk uri = false := by
      unfold cardUriOk
      rcases not_and_or.mp hl with h | h <;> simp [h]
    have key_sc : set_card a uri hash = .error .InvalidLength := by
      unfold set_card
      rw [if_pos hl]
    rw [key_ca, if_pos hl]
    refine ⟨?_, fun _ => Or.inl key_sc, ?_, ?_, ?_⟩
    · rw [key_sc, hcard]
      rfl
    · intro a' ha
      rw [key_sc] at ha
      cases ha
    · rw [hcard]
      rfl
    · intro a' ha
      cases ha

/-- Witness for the amended C9 at a concrete valid URI. -/
theorem c9_card_roundtrip_witness :
    (set_card freshAgent (httpsBytes ++ [120]) zero32).isOk =
      cardUriOk (httpsBytes ++ [120]) :=
  (c9_card_roundtrip freshAgent 1 (httpsBytes ++ [120]) zero32 none).1

/-! ## agent-staking: pools and stake positions -/

/-- The `StakingPool` account. -/
structure StakingPool where
  agent_pda : Nat
  owner : Nat
  token_mint : Nat
  token_vault : Nat
  min_stake_amount : Nat
  total_staked : Nat
  staker_count : Nat
  created_at : Int
  flags : Nat
deriving DecidableEq, Repr

/-- The `StakeAccount` record (one position per staker and agent). -/
structure StakeAccount where
  staker : Nat
  agent_pda : Nat
  staked_amount : Nat
  staked_at : Int
  last_updated_at : Int
deriving DecidableEq, Repr

/-- `stake` from `agent-staking/src/lib.rs`.  The `Stake` accounts struct
constrains `stake_account.staker == staker.key()` before the body runs; the
body then checks `amount > 0`, the first-time minimum (incrementing
`staker_count`), re-checks ownership, and performs the SPL transfer — an
external call whose failure aborts the whole instruction with no state
change, so a successful transfer is assumed in the success path. -/
def stake (pool : StakingPool) (stake_acc : StakeAccount) (staker : Nat)
    (amount : Nat) (now : Int) :
    Except StakingError (StakingPool × StakeAccount) :=
  if stake_acc.staker ≠ staker then .error .Unauthorized
  else if amount = 0 then .error .InvalidStakeAmount
  else if stake_acc.staked_amount = 0 ∧ amount < pool.min_stake_amount then
    .error .BelowMinimumStake
  else
    let pool1 := if stake_acc.staked_amount = 0 then
      { pool with staker_count := satAdd32 pool.staker_count 1 } else pool
    if stake_acc.staker ≠ staker then .error .Unauthorized
    else .ok
      ({ pool1 with total_staked := satAdd64 pool1.total_staked amount },
       { stake_acc with
         staked_amount := satAdd64 stake_acc.staked_amount amount
         last_updated_at := now })

/-- `withdraw_stake` from `agent-staking/src/lib.rs`, with the accounts
constraint `stake_account.staker == staker.key()` first.  The result carries
the paid fee and the token amount returned to the staker; `staker_lamports`
and `rent_exempt` are the caller's native balance and the rent floor read
from the environment. -/
def withdraw_stake (pool : StakingPool) (state : ProgramState)
    (stake_acc : StakeAccount) (staker : Nat) (now : Int)
    (staker_lamports rent_exempt : Nat) :
    Except StakingError (StakingPool × StakeAccount × Nat × Nat) :=
  if stake_acc.staker ≠ staker then .error .Unauthorized
  else if stake_acc.staked_amount = 0 then .error .NoStake
  else
    let elapsed := (max (now - stake_acc.staked_at) 0).toNat
    match calculate_unstake_fee elapsed state with
    | .error e => .error e
    | .ok fee =>
      if 0 < fee ∧ staker_lamports < satAdd64 fee rent_exempt then
        .error .InsufficientSolForFee
      else
        .ok ({ pool with
            total_staked := pool.total_staked - stake_acc.staked_amount },
          { stake_acc with staked_amount := 0, last_updated_at := now },
          fee, stake_acc.staked_amount)

/-- A successful `withdraw_stake` returns the whole position, zeroes it,
stamps `last_updated_at`, keeps `staked_at`, and saturating-subtracts the
amount from the pool, leaving `staker_count` and the rest untouched. -/
theorem withdraw_ok_spec (pool : StakingPool) (state : ProgramState)
    (acc : StakeAccount) (stkr : Nat) (now : Int) (lam rent : Nat)
    (p' : StakingPool) (a' : StakeAccount) (fee amt : Nat)
    (h : withdraw_stake pool state acc stkr now lam rent =
      .ok (p', a', fee, amt)) :
    amt = acc.staked_amount ∧
    a' = { acc with staked_amount := 0, last_updated_at := now } ∧
    p' = { pool with
      total_staked := pool.total_staked - acc.staked_amount } := by
  unfold withdraw_stake at h
  split at h
  · cases h
  split at h
  · cases h
  simp only at h
  split at h
  · cases h
  split at h
  · cases h
  injection h with hpair
  injection hpair with h1 hrest
  injection hrest with h2 hrest2
  injection hrest2 with h3 h4
  subst h1
  subst h2
  subst h3
  subst h4
  exact ⟨rfl, rfl, rfl⟩

/-- C7: a successful `WithdrawStake` transfers the entire staked amount,
zeroes the position, updates `last_updated_at`, keeps `staked_at`,
saturating-decrements `pool.totalStaked`, leaves `staker_count` and the
position record in place; with nothing staked it fails `NoStake`. -/
theorem c7_withdraw_frame (pool : StakingPool) (state : ProgramState)
    (acc : StakeAccount) (now : Int) (lam rent : Nat) :
    (∀ p' a' fee amt,
      withdraw_stake pool state acc acc.staker now lam rent =
        .ok (p', a', fee, amt) →
      amt = acc.staked_amount ∧
      a'.staked_amount = 0 ∧
      a'.last_updated_at = now ∧
      a'.staked_at = acc.staked_at ∧
      a'.staker = acc.staker ∧
      a'.agent_pda = acc.agent_pda ∧
      p'.total_staked = pool.total_staked - acc.staked_amount ∧
      p'.staker_count = pool.staker_count ∧
      p'.min_stake_amount = pool.min_stake_amount) ∧
    (acc.staked_amount = 0 →
      withdraw_stake pool state acc acc.staker now lam rent =
        .error .NoStake) := by
  constructor
  · intro p' a' fee amt h
    obtain ⟨h1, h2, h3⟩ := withdraw_ok_spec pool state acc acc.staker now lam
      rent p' a' fee amt h
    subst h1
    subst h2
    subst h3
    exact ⟨rfl, rfl, rfl, rfl, rfl, rfl, rfl, rfl, rfl⟩
  · intro h0
    unfold withdraw_stake
    rw [if_neg (by simp), if_pos h0]

/-- A pool with one staker holding 1000 staked tokens. -/
def samplePool : StakingPool := ⟨11, 7, 1, 2, 1000, 1000, 1, 0, 1⟩

/-- A position that has withdrawn back to zero. -/
def emptyAcc : StakeAccount := ⟨9, 11, 0, 100, 100⟩

/-- Witness for C7: withdrawing from an empty position fails `NoStake`. -/
theorem c7_withdraw_frame_witness :
    withdraw_stake samplePool (defaultProgramState 0) emptyAcc
      emptyAcc.staker 100 1000000000 0 = .error .NoStake :=
  (c7_withdraw_frame samplePool (defaultProgramState 0) emptyAcc 100
    1000000000 0).2 rfl

/-! ## C6: the minimum-stake gate -/

/-- A pool whose `staker_count` already sits at `u32::MAX`. -/
def maxedPool : StakingPool := ⟨11, 7, 1, 2, 1, 0, 4294967295, 0, 1⟩

/-- A freshly initialized position (`staked_amount = 0`). -/
def zeroAcc : StakeAccount := ⟨9, 11, 0, 100, 100⟩

/-- C6 counterexample: `staker_count` is incremented with `saturating_add`,
so a successful first-time stake on a pool already at `u32::MAX` stakers
leaves the counter unchanged instead of incrementing it by one. -/
theorem c6_min_stake_gate_cex :
    (stake maxedPool zeroAcc 9 5 100).map (fun r => r.1.staker_count) =
      .ok 4294967295 ∧
    maxedPool.staker_count + 1 = 4294967296 := by decide

/-- C6 (amended): a first-time stake below the pool minimum always fails
`BelowMinimumStake`; a successful first-time stake bumps `staker_count` by
one saturating at `u32::MAX`; a top-up on a nonzero position succeeds for
any positive amount regardless of the minimum and leaves `staker_count`
unchanged. -/
theorem c6_min_stake_gate (pool : StakingPool) (acc : StakeAccount)
    (amount : Nat) (now : Int) :
    (acc.staked_amount = 0 → 0 < amount → amount < pool.min_stake_amount →
      stake pool acc acc.staker amount now = .error .BelowMinimumStake) ∧
    (acc.staked_amount = 0 →
      ∀ p' a', stake pool acc acc.staker amount now = .ok (p', a') →
        p'.staker_count = satAdd32 pool.staker_count 1) ∧
    (acc.staked_amount ≠ 0 → 0 < amount →
      stake pool acc acc.staker amount now =
        .ok ({ pool with total_staked := satAdd64 pool.total_staked amount },
          { acc with
            staked_amount := satAdd64 acc.staked_amount amount
            last_updated_at := now })) := by
  refine ⟨?_, ?_, ?_⟩
  · intro h0 hpos hlt
    unfold stake
    rw [if_neg (by simp), if_neg (by omega), if_pos ⟨h0, hlt⟩]
  · intro h0 p' a' h
    unfold stake at h
    split at h
    · cases h
    split at h
    · cases h
    split at h
    · cases h
    simp only [h0, if_pos] at h
    injection h with hpair
    injection hpair with h1 h2
    subst h1
    rfl
  · intro hne hpos
    unfold stake
    rw [if_neg (by simp), if_neg (by omega),
      if_neg (by simp [hne] : ¬(acc.staked_amount = 0 ∧
        amount < pool.min_stake_amount))]
    simp only [if_neg hne, if_neg (by simp : ¬acc.staker ≠ acc.staker)]

/-- Witness for the amended C6: a first-time stake below the minimum on a
concrete pool fails `BelowMinimumStake`. -/
theorem c6_min_stake_gate_witness :
    stake samplePool zeroAcc zeroAcc.staker 500 100 =
      .error .BelowMinimumStake :=
  (c6_min_stake_gate samplePool zeroAcc 500 100).1 rfl (by decide) (by decide)

/-! ## C1: pool stake accounting over operation traces -/

/-- One pool together with the stake positions created against it by
`InitStake`. -/
structure LedgerState where
  pool : StakingPool
  accs : List StakeAccount
deriving DecidableEq, Repr

/-- A `Stake` or `WithdrawStake` call on position `i`, with the external
inputs the instruction reads (clock, fee config, caller balance, rent
floor).  The caller is the position's staker, as forced by the
`stake_account` PDA seeds. -/
inductive PoolOp where
  | stakeOp (i : Nat) (amount : Nat) (now : Int)
  | withdrawOp (i : Nat) (now : Int) (state : ProgramState)
      (lamports rent : Nat)
deriving DecidableEq, Repr

/-- Total of all positions' `staked_amount`. -/
def sumStaked (accs : List StakeAccount) : Nat :=
  (accs.map (fun a => a.staked_amount)).sum

/-- Apply one operation; failures leave the ledger unchanged (atomic
abort). -/
def applyPoolOp (s : LedgerState) (op : PoolOp) : LedgerState :=
  match op with
  | .stakeOp i amount now =>
    match s.accs[i]? with
    | none => s
    | some acc =>
      match stake s.pool acc acc.staker amount now with
      | .ok (p', a') => ⟨p', s.accs.set i a'⟩
      | .error _ => s
  | .withdrawOp i now st lam rent =>
    match s.accs[i]? with
    | none => s
    | some acc =>
      match withdraw_stake s.pool st acc acc.staker now lam rent with
      | .ok (p', a', _, _) => ⟨p', s.accs.set i a'⟩
      | .error _ => s

/-- Run a sequence of operations. -/
def runPoolOps (s : LedgerState) (ops : List PoolOp) : LedgerState :=
  ops.foldl applyPoolOp s

/-- The C1 invariant: the pool's `total_staked` equals the sum of its
positions' `staked_amount`. -/
def stakeInv (s : LedgerState) : Prop :=
  s.pool.total_staked = sumStaked s.accs

instance (s : LedgerState) : Decidable (stakeInv s) := by
  unfold stakeInv; infer_instance

/-- No `u64` saturation at this step: a stake may not push the pool total
past `u64::MAX`. -/
def noSatOp (s : LedgerState) (op : PoolOp) : Bool :=
  match op with
  | .stakeOp _ amount _ => decide (s.pool.total_staked + amount ≤ U64MAX)
  | .withdrawOp _ _ _ _ _ => true

/-- No `u64` saturation anywhere along the trace. -/
def noSatTrace (s : LedgerState) : List PoolOp → Bool
  | [] => true
  | op :: rest => noSatOp s op && noSatTrace (applyPoolOp s op) rest

theorem sumStaked_getElem_le (accs : List StakeAccount) (i : Nat)
    (acc : StakeAccount) (h : accs[i]? = some acc) :
    acc.staked_amount ≤ sumStaked accs := by
  induction accs generalizing i with
  | nil => simp at h
  | cons x xs ih =>
    cases i with
    | zero =>
      simp at h
      subst h
      simp [sumStaked]
    | succ n =>
      simp at h
      have := ih n h
      simp [sumStaked] at this ⊢
      omega

theorem sumStaked_set (accs : List StakeAccount) (i : Nat)
    (acc a' : StakeAccount) (h : accs[i]? = some acc) :
    sumStaked (accs.set i a') + acc.staked_amount =
      sumStaked accs + a'.staked_amount := by
  induction accs generalizing i with
  | nil => simp at h
  | cons x xs ih =>
    cases i with
    | zero =>
      simp at h
      subst h
      simp [sumStaked, List.set]
      omega
    | succ n =>
      simp at h
      have := ih n h
      simp [sumStaked, List.set] at this ⊢
      omega

/-- A successful `stake` adds the amount (saturating) to both the position
and the pool total. -/
theorem stake_ok_spec (pool : StakingPool) (acc : StakeAccount)
    (stkr amount : Nat) (now : Int) (p' : StakingPool) (a' : StakeAccount)
    (h : stake pool acc stkr amount now = .ok (p', a')) :
    p'.total_staked = satAdd64 pool.total_staked amount ∧
    a'.staked_amount = satAdd64 acc.staked_amount amount := by
  unfold stake at h
  split at h
  · cases h
  split at h
  · cases h
  split at h
  · cases h
  by_cases h0 : acc.staked_amount = 0
  · simp only [h0, if_pos] at h
    injection h with hpair
    injection hpair with h1 h2
    subst h1
    subst h2
    exact ⟨rfl, by rw [h0]⟩
  · simp only [if_neg h0] at h
    injection h with hpair
    injection hpair with h1 h2
    subst h1
    subst h2
    exact ⟨rfl, rfl⟩

/-- One step preserves the stake-accounting invariant, provided the step
does not saturate the `u64` pool total. -/
theorem applyPoolOp_inv (s : LedgerState) (op : PoolOp)
    (hinv : stakeInv s) (hns : noSatOp s op = true) :
    stakeInv (applyPoolOp s op) := by
  cases op with
  | stakeOp i amount now =>
    cases hacc : s.accs[i]? with
    | none => simpa [applyPoolOp, hacc] using hinv
    | some acc =>
      cases hres : stake s.pool acc acc.staker amount now with
      | error e => simpa [applyPoolOp, hacc, hres] using hinv
      | ok pr =>
        obtain ⟨p', a'⟩ := pr
        simp only [applyPoolOp, hacc, hres]
        obtain ⟨hT, hA⟩ :=
          stake_ok_spec s.pool acc acc.staker amount now p' a' hres
        have hle := sumStaked_getElem_le s.accs i acc hacc
        have hset := sumStaked_set s.accs i acc a' hacc
        have hsum : s.pool.total_staked + amount ≤ U64MAX := by
          simpa [noSatOp] using hns
        unfold stakeInv at hinv
        unfold stakeInv
        simp only
        have hsatT : satAdd64 s.pool.total_staked amount =
            s.pool.total_staked + amount := by
          unfold satAdd64
          omega
        have hsatA : satAdd64 acc.staked_amount amount =
            acc.staked_amount + amount := by
          unfold satAdd64
          omega
        rw [hT, hsatT]
        rw [hsatA] at hA
        omega
  | withdrawOp i now st lam rent =>
    cases hacc : s.accs[i]? with
    | none => simpa [applyPoolOp, hacc] using hinv
    | some acc =>
      cases hres : withdraw_stake s.pool st acc acc.staker now lam rent with
      | error e => simpa [applyPoolOp, hacc, hres] using hinv
      | ok pr =>
        obtain ⟨p', a', fee, amt⟩ := pr
        simp only [applyPoolOp, hacc, hres]
        obtain ⟨h1, h2, h3⟩ := withdraw_ok_spec s.pool st acc acc.staker now
          lam rent p' a' fee amt hres
        have hle := sumStaked_getElem_le s.accs i acc hacc
        have hset := sumStaked_set s.accs i acc a' hacc
        unfold stakeInv at hinv
        unfold stakeInv
        simp only
        subst h2
        subst h3
        simp only at hset ⊢
        omega

/-- C1 (amended): starting from any state satisfying the accounting
invariant (in particular the zeroed state left by `CreateStakingPool` and
`InitStake`), any sequence of `Stake`/`WithdrawStake` calls in which no
stake pushes the pool total past `u64::MAX` preserves
`total_staked = sum of positions` — without that bound the saturating
arithmetic breaks the equality (see the counterexample). -/
theorem c1_stake_accounting (s : LedgerState) (hinv : stakeInv s)
    (ops : List PoolOp) (hns : noSatTrace s ops = true) :
    stakeInv (runPoolOps s ops) := by
  induction ops generalizing s with
  | nil => exact hinv
  | cons op rest ih =>
    simp only [noSatTrace, Bool.and_eq_true] at hns
    exact ih (applyPoolOp s op) (applyPoolOp_inv s op hinv hns.1) hns.2

/-- A fresh pool (min stake 1000) with two zeroed positions. -/
def initLedger : LedgerState :=
  ⟨⟨11, 7, 1, 2, 1000, 0, 0, 0, 1⟩, [⟨9, 11, 0, 0, 0⟩, ⟨10, 11, 0, 0, 0⟩]⟩

/-- Witness for the amended C1 on a concrete three-step trace. -/
theorem c1_stake_accounting_witness :
    stakeInv (runPoolOps initLedger
      [PoolOp.stakeOp 0 1000 5,
       PoolOp.withdrawOp 0 6 (defaultProgramState 0) 1000000000 0,
       PoolOp.stakeOp 1 2000 7]) :=
  c1_stake_accounting initLedger (by decide)
    [PoolOp.stakeOp 0 1000 5,
     PoolOp.withdrawOp 0 6 (defaultProgramState 0) 1000000000 0,
     PoolOp.stakeOp 1 2000 7] (by decide)

/-- A fresh pool with minimum stake 1 and two zeroed positions. -/
def bigLedger : LedgerState :=
  ⟨⟨11, 7, 1, 2, 1, 0, 0, 0, 1⟩, [⟨9, 11, 0, 0, 0⟩, ⟨10, 11, 0, 0, 0⟩]⟩

/-- C1 counterexample: two maximal stakes saturate the pool's `u64` total
(`saturating_add`), so after a legal sequence from the freshly initialized
state the invariant `totalStaked = sum of positions` fails. -/
theorem c1_stake_accounting_cex :
    stakeInv bigLedger ∧
    ¬ stakeInv (runPoolOps bigLedger
      [PoolOp.stakeOp 0 18446744073709551615 5,
       PoolOp.stakeOp 1 18446744073709551615 6]) := by decide

/-! ## C10: the agent-platform duplicates

`agent-platform/src/lib.rs` repeats the registry and staking logic in one
program.  Its `AgentRegistry` and `ProgramState` account structs are
field-for-field identical to the originals, so the same Lean record types
are used; only the error enum differs (one merged `PlatformError`).  The
duplicated `set_memory` and `calculate_unstake_fee` are embedded below
directly from the agent-platform source. -/

/-- Error enum of the `agent_platform` program (`PlatformError`). -/
inductive PlatformError where
  | Unauthorized
  | InvalidOwner
  | InvalidLength
  | InvalidMemoryFields
  | MemoryLocked
  | AgentActive
  | StakingEnabled
  | InsecureUrl
  | InvalidMinStakeAmount
  | InvalidFeeConfig
  | InvalidStakeAmount
  | NoStake
  | InvalidVault
  | BelowMinimumStake
  | InsufficientSolForFee
  | StakingNotEnabled
deriving DecidableEq, Repr

namespace agent_platform

/-- The `Ipns | Manifest | Url` arm of the platform's `set_memory`
(identical to the registry's, with the platform error enum). -/
def set_memory_hashed (agent : AgentRecord) (modeVal : Nat) (isUrl : Bool)
    (ptr : List Nat) (hash_opt : Option (List Nat)) :
    Except PlatformError AgentRecord :=
  if ptr.isEmpty then .error .InvalidMemoryFields
  else
    match hash_opt with
    | none => .error .InvalidMemoryFields
    | some h =>
      if h = zero32 then .error .InvalidMemoryFields
      else if isUrl ∧ ¬ utf8Valid ptr then .error .InvalidMemoryFields
      else if isUrl ∧ ¬ httpsBytes.isPrefixOf ptr then .error .InsecureUrl
      else .ok { agent with
        memory_hash := h
        memory_mode := modeVal
        memory_ptr_len := ptr.length % 256
        memory_ptr := write_fixed 96 ptr }

/-- `set_memory` from `agent-platform/src/lib.rs`. -/
def set_memory (agent : AgentRecord) (mode : Nat) (ptr : List Nat)
    (hash_opt : Option (List Nat)) : Except PlatformError AgentRecord :=
  if agent.flags &&& FLAG_LOCKED ≠ 0 then .error .MemoryLocked
  else if ¬ ptr.length ≤ 96 then .error .InvalidLength
  else if mode = 0 then
    if ¬ ptr.isEmpty then .error .InvalidMemoryFields
    else if hash_opt.getD zero32 ≠ zero32 then .error .InvalidMemoryFields
    else .ok { agent with
      memory_hash := zero32
      memory_ptr_len := 0
      memory_ptr := List.replicate 96 0
      memory_mode := 0 }
  else if mode = 1 then
    if ptr.isEmpty then .error .InvalidMemoryFields
    else if hash_opt.getD zero32 ≠ zero32 then .error .InvalidMemoryFields
    else if ¬ cid_like ptr then .error .InvalidMemoryFields
    else .ok { agent with
      memory_hash := zero32
      memory_mode := 1
      memory_ptr_len := ptr.length % 256
      memory_ptr := write_fixed 96 ptr }
  else if mode = 2 then set_memory_hashed agent 2 false ptr hash_opt
  else if mode = 3 then set_memory_hashed agent 3 true ptr hash_opt
  else if mode = 4 then set_memory_hashed agent 4 false ptr hash_opt
  else .error .InvalidMemoryFields

/-- `calculate_unstake_fee` from `agent-platform/src/lib.rs`. -/
def calculate_unstake_fee (elapsed_secs : Nat) (state : ProgramState) :
    Except PlatformError Nat :=
  if state.decay_duration_seconds = 0 then
    .error .InvalidFeeConfig
  else if state.decay_duration_seconds ≤ elapsed_secs then
    .ok (min state.fee_regular_lamports state.fee_max_lamports)
  else
    let diff := state.fee_immediate_lamports - state.fee_regular_lamports
    let reduction := satMul128 diff elapsed_secs / state.decay_duration_seconds
    let fee := state.fee_immediate_lamports - reduction
    .ok (min fee state.fee_max_lamports % 2 ^ 64)

end agent_platform

/-- The evident rename from registry errors to platform errors
(`AdminRequired` and `AlreadyInitialized` have no platform counterpart and
are never produced by `set_memory`; they are mapped to `Unauthorized`). -/
def memErrMap : AgentError → PlatformError
  | .Unauthorized => .Unauthorized
  | .AdminRequired => .Unauthorized
  | .InvalidOwner => .InvalidOwner
  | .InvalidLength => .InvalidLength
  | .InvalidMemoryFields => .InvalidMemoryFields
  | .MemoryLocked => .MemoryLocked
  | .AgentActive => .AgentActive
  | .StakingEnabled => .StakingEnabled
  | .InsecureUrl => .InsecureUrl
  | .AlreadyInitialized => .Unauthorized

/-- The evident rename from staking errors to platform errors
(`InvalidAgent` has no platform counterpart and is never produced by
`calculate_unstake_fee`; it is mapped to `Unauthorized`). -/
def feeErrMap : StakingError → PlatformError
  | .InvalidMinStakeAmount => .InvalidMinStakeAmount
  | .InvalidFeeConfig => .InvalidFeeConfig
  | .InvalidStakeAmount => .InvalidStakeAmount
  | .NoStake => .NoStake
  | .Unauthorized => .Unauthorized
  | .InvalidVault => .InvalidVault
  | .BelowMinimumStake => .BelowMinimumStake
  | .InsufficientSolForFee => .InsufficientSolForFee
  | .InvalidAgent => .Unauthorized
  | .StakingNotEnabled => .StakingNotEnabled

/-- The two copies of the hashed-mode arm agree up to the error rename. -/
theorem set_memory_hashed_equiv (a : AgentRecord) (mv : Nat) (isUrl : Bool)
    (ptr : List Nat) (ho : Option (List Nat)) :
    agent_platform.set_memory_hashed a mv isUrl ptr ho =
      (set_memory_hashed a mv isUrl ptr ho).mapError memErrMap := by
  unfold agent_platform.set_memory_hashed set_memory_hashed
  cases ho with
  | none => split_ifs <;> rfl
  | some h0 =>
    simp only [Except.mapError]
    split_ifs <;> rfl

/-- C10: the duplicated program variants compute identical transitions: the
platform's `set_memory` agrees with the registry's on every input (same
success state, same error up to the canonical enum rename), and the
platform's `calculate_unstake_fee` agrees with the staking program's on
every `(elapsed, config)` pair. -/
theorem c10_program_equivalence :
    (∀ (a : AgentRecord) (mode : Nat) (ptr : List Nat)
        (hash_opt : Option (List Nat)),
      agent_platform.set_memory a mode ptr hash_opt =
        (set_memory a mode ptr hash_opt).mapError memErrMap) ∧
    (∀ (e : Nat) (st : ProgramState),
      agent_platform.calculate_unstake_fee e st =
        (calculate_unstake_fee e st).mapError feeErrMap) := by
  constructor
  · intro a mode ptr hash_opt
    unfold agent_platform.set_memory set_memory
    split_ifs <;> first
      | rfl
      | exact set_memory_hashed_equiv a 2 false ptr hash_opt
      | exact set_memory_hashed_equiv a 3 true ptr hash_opt
      | exact set_memory_hashed_equiv a 4 false ptr hash_opt
  · intro e st
    unfold agent_platform.calculate_unstake_fee calculate_unstake_fee
    split_ifs <;> rfl
